import Mathlib

set_option maxHeartbeats 1000000

/-!
Verification development for the spreadsheet core of this repository:
cell addressing, cell type detection, formula evaluation and the single
store update operation.  Definitions are shallow embeddings of the
TypeScript source in src/utils/spreadsheet.ts and of the store update
handler handleCellValueChange.  JavaScript numbers are modelled as exact
fractions together with the special values Infinity, -Infinity and NaN;
binary64 rounding and negative zero are not modelled (every computation
exercised by the theorems below is exact).  The dynamic JavaScript
evaluation of the substituted expression runs arbitrary JavaScript in the
source; the model covers its number-and-string expression fragment
(numeric and quoted string literals, the words Infinity and NaN, the
operators + - * / with their coercion rules, unary signs and
parentheses), on which it agrees with the source, and sends every other
expression to the failure path.  Because the model can fail where the
source succeeds, no universally quantified theorem below depends on that
direction: such statements either hold of arbitrary evaluation results as
well or carry an explicit hypothesis restricting them to the modelled
fragment.
-/

namespace Spreadsheet

/-- Cell type tag, the closed set of values of the type field of a cell. -/
inductive CellType
  | text
  | number
  | formula
  | date
  | boolean
deriving DecidableEq, Repr

/-- Presentational style attributes of a cell; never computed by the core,
only carried through unchanged. -/
structure CellStyle where
  backgroundColor : Option String := none
  textColor : Option String := none
  fontWeight : Option String := none
  textAlign : Option String := none
  fontSize : Option Nat := none
deriving DecidableEq, Repr

/-- Cell record, mirroring the Cell interface of types/spreadsheet.ts.
The optional formula and style fields are modelled with Option. -/
structure Cell where
  id : String
  row : Nat
  col : Nat
  value : String
  formula : Option String := none
  type : CellType
  style : Option CellStyle := none
deriving DecidableEq, Repr

/-- The cell collection: a mapping from address string to cell record,
the Record of the source. -/
def Cells : Type := String → Option Cell

/-- The empty cell collection. -/
def emptyCells : Cells := fun _ => none

/-- Character class of the address regex letter part: ASCII uppercase A-Z. -/
def isUpperAZ (c : Char) : Bool := 65 ≤ c.toNat && c.toNat ≤ 90

/-- Character class of the address regex digit part: ASCII digits 0-9. -/
def isDigitCh (c : Char) : Bool := 48 ≤ c.toNat && c.toNat ≤ 57

/-- Whitespace characters recognised by the modelled JavaScript trimming
and numeric parsing (a representative subset of the JavaScript class). -/
def isWsCh (c : Char) : Bool := c = ' ' || c = '\t' || c = '\n' || c = '\r'

/-- Exact fraction with an integer numerator and a positive denominator;
every constructor below keeps the denominator positive, and no operation
normalises, so all arithmetic is kernel computable.  The encoded value is
num / den and every observation (sign tests and decimal printing) depends
only on that value. -/
structure Frac where
  num : Int
  den : Nat := 1
deriving DecidableEq, Repr

/-- Fraction for an integer value. -/
def fracOfInt (n : Int) : Frac := { num := n, den := 1 }

/-- Fraction negation. -/
def fracNeg (a : Frac) : Frac := { num := -a.num, den := a.den }

/-- Fraction addition by cross multiplication. -/
def fracAdd (a b : Frac) : Frac :=
  { num := a.num * (b.den : Int) + b.num * (a.den : Int), den := a.den * b.den }

/-- Fraction multiplication. -/
def fracMul (a b : Frac) : Frac := { num := a.num * b.num, den := a.den * b.den }

/-- Fraction division for a nonzero divisor, keeping the denominator
positive by moving the sign of the divisor into the numerator. -/
def fracDiv (a b : Frac) : Frac :=
  if 0 ≤ b.num then { num := a.num * (b.den : Int), den := a.den * b.num.toNat }
  else { num := -(a.num * (b.den : Int)), den := a.den * (-b.num).toNat }

/-- Fraction for a power of ten with an integer exponent. -/
def fracPowTen (e : Int) : Frac :=
  if 0 ≤ e then { num := ((10 : Nat) ^ e.toNat : Nat), den := 1 }
  else { num := 1, den := (10 : Nat) ^ (-e).toNat }

/-- JavaScript number model: exact fractions for finite values plus the
special values Infinity, -Infinity and NaN. -/
inductive JSNum
  | finite (q : Frac)
  | posInf
  | negInf
  | nan
deriving DecidableEq, Repr

/-- Zero of the number model. -/
def jsZero : JSNum := .finite (fracOfInt 0)

/-- NaN test on the number model, the isNaN of the source. -/
def jsIsNaN : JSNum → Bool
  | .nan => true
  | _ => false

/-- JavaScript unary minus on the number model. -/
def jsNeg : JSNum → JSNum
  | .finite q => .finite (fracNeg q)
  | .posInf => .negInf
  | .negInf => .posInf
  | .nan => .nan

/-- JavaScript addition: NaN is absorbing, opposite infinities give NaN. -/
def jsAdd : JSNum → JSNum → JSNum
  | .nan, _ => .nan
  | _, .nan => .nan
  | .posInf, .negInf => .nan
  | .negInf, .posInf => .nan
  | .posInf, _ => .posInf
  | _, .posInf => .posInf
  | .negInf, _ => .negInf
  | _, .negInf => .negInf
  | .finite a, .finite b => .finite (fracAdd a b)

/-- JavaScript subtraction, via addition of the negation. -/
def jsSub (a b : JSNum) : JSNum := jsAdd a (jsNeg b)

/-- JavaScript multiplication: NaN absorbing, infinity times zero is NaN. -/
def jsMul : JSNum → JSNum → JSNum
  | .nan, _ => .nan
  | _, .nan => .nan
  | .posInf, .posInf => .posInf
  | .posInf, .negInf => .negInf
  | .negInf, .posInf => .negInf
  | .negInf, .negInf => .posInf
  | .posInf, .finite b => if 0 < b.num then .posInf else if b.num < 0 then .negInf else .nan
  | .finite a, .posInf => if 0 < a.num then .posInf else if a.num < 0 then .negInf else .nan
  | .negInf, .finite b => if 0 < b.num then .negInf else if b.num < 0 then .posInf else .nan
  | .finite a, .negInf => if 0 < a.num then .negInf else if a.num < 0 then .posInf else .nan
  | .finite a, .finite b => .finite (fracMul a b)

/-- JavaScript division: division of a nonzero finite value by zero gives a
signed infinity, zero by zero gives NaN (the sign of zero is not modelled). -/
def jsDiv : JSNum → JSNum → JSNum
  | .nan, _ => .nan
  | _, .nan => .nan
  | .posInf, .posInf => .nan
  | .posInf, .negInf => .nan
  | .negInf, .posInf => .nan
  | .negInf, .negInf => .nan
  | .posInf, .finite b => if 0 ≤ b.num then .posInf else .negInf
  | .negInf, .finite b => if 0 ≤ b.num then .negInf else .posInf
  | .finite _, .posInf => jsZero
  | .finite _, .negInf => jsZero
  | .finite a, .finite b =>
      if b.num = 0 then
        if 0 < a.num then .posInf else if a.num < 0 then .negInf else .nan
      else .finite (fracDiv a b)

/-- Decimal digit characters of a natural number, most significant first,
with structural fuel; the number itself always bounds the digit count. -/
def natToDecimalGo : Nat → Nat → List Char
  | 0, n => [Char.ofNat (48 + n % 10)]
  | fuel + 1, n =>
      if n < 10 then [Char.ofNat (48 + n % 10)]
      else natToDecimalGo fuel (n / 10) ++ [Char.ofNat (48 + n % 10)]

/-- Decimal digit characters of a natural number, most significant first. -/
def natToDecimalAux (n : Nat) : List Char := natToDecimalGo n n

/-- Decimal string of a natural number, the model of JavaScript template
interpolation of a nonnegative integer. -/
def natToDecimal (n : Nat) : String := String.mk (natToDecimalAux n)

/-- Numeric value of a single ASCII digit character. -/
def digitVal (c : Char) : Nat := c.toNat - 48

/-- Value of a digit character list read in base 10.  This is the model of
parseInt applied to a string of decimal digits. -/
def digitsToNat (l : List Char) : Nat := l.foldl (fun acc c => 10 * acc + digitVal c) 0

/-- Decimal digits of the fractional part of a fraction r / d, at most the
given number of digits (17, matching the maximum JavaScript precision). -/
def fracDigits : Nat → Nat → Nat → List Char
  | 0, _, _ => []
  | fuel + 1, r, d =>
      if r = 0 then []
      else Char.ofNat (48 + r * 10 / d) :: fracDigits fuel (r * 10 % d) d

/-- Decimal string of a nonnegative fraction: integer part, then a point
and the fractional digits when the value is not an integer. -/
def ratNonnegToString (q : Frac) : String :=
  let n := q.num.toNat
  let d := q.den
  if n % d = 0 then natToDecimal (n / d)
  else natToDecimal (n / d) ++ "." ++ String.mk (fracDigits 17 (n % d) d)

/-- Decimal string of a fraction, the model of JavaScript number toString
for finite values (exact on the integer values the claims exercise; the
shortest round trip formatting of long binary64 fractions and the
exponent display of extreme magnitudes are not modelled). -/
def ratToDecimalString (q : Frac) : String :=
  if q.num < 0 then "-" ++ ratNonnegToString (fracNeg q) else ratNonnegToString q

/-- String form of a JavaScript number, the model of Number toString. -/
def jsNumToString : JSNum → String
  | .finite q => ratToDecimalString q
  | .posInf => "Infinity"
  | .negInf => "-Infinity"
  | .nan => "NaN"

/-- Fractional value of a digit list read as the digits after the point. -/
def fracValue (l : List Char) : Frac :=
  { num := (digitsToNat l : Int), den := (10 : Nat) ^ l.length }

/-- The character list of the word Infinity. -/
def infinityChars : List Char := ['I', 'n', 'f', 'i', 'n', 'i', 't', 'y']

/-- Head test on a character list. -/
def headIs (c : Char) : List Char → Bool
  | x :: _ => x = c
  | [] => false

/-- Longest unsigned decimal literal at the front of a character list:
digits, an optional point with further digits, and an optional exponent
that is taken only when it has at least one digit.  Returns the exact
value and the unconsumed suffix; fails when no digit is present.  This is
the shared front end of the parseFloat model and of numeric literals in
the expression tokenizer. -/
def parseDecFront (l : List Char) : Option (Frac × List Char) :=
  let intD := l.takeWhile isDigitCh
  let r1 := l.dropWhile isDigitCh
  let fracD := if headIs '.' r1 then r1.tail.takeWhile isDigitCh else []
  let r2 := if headIs '.' r1 then r1.tail.dropWhile isDigitCh else r1
  if intD.isEmpty && (!headIs '.' r1 || fracD.isEmpty) then none
  else
    let mant : Frac := fracAdd (fracOfInt (digitsToNat intD : Int)) (fracValue fracD)
    if headIs 'e' r2 || headIs 'E' r2 then
      let rest := r2.tail
      let sgnAndRest : Int × List Char :=
        if headIs '+' rest then (1, rest.tail)
        else if headIs '-' rest then (-1, rest.tail)
        else (1, rest)
      let expD := sgnAndRest.2.takeWhile isDigitCh
      let r4 := sgnAndRest.2.dropWhile isDigitCh
      if expD.isEmpty then some (mant, r2)
      else some (fracMul mant (fracPowTen (sgnAndRest.1 * (digitsToNat expD : Int))), r4)
    else some (mant, r2)

/-- Model of JavaScript parseFloat: skip leading whitespace, read an
optional sign, then either the word Infinity or the longest decimal
literal prefix; NaN when no numeric prefix exists. -/
def jsParseFloat (s : String) : JSNum :=
  let l := s.toList.dropWhile isWsCh
  let signAndRest : Int × List Char := match l with
    | '+' :: t => (1, t)
    | '-' :: t => (-1, t)
    | _ => (1, l)
  if infinityChars.isPrefixOf signAndRest.2 then
    if signAndRest.1 = 1 then JSNum.posInf else JSNum.negInf
  else
    match parseDecFront signAndRest.2 with
    | some (q, _) => JSNum.finite (if signAndRest.1 = 1 then q else fracNeg q)
    | none => JSNum.nan

/-- Strip trailing whitespace from a character list. -/
def trimRight : List Char → List Char
  | [] => []
  | c :: cs =>
      match trimRight cs with
      | [] => if isWsCh c then [] else [c]
      | r => c :: r

/-- Strip leading and trailing whitespace from a character list. -/
def jsTrimList (l : List Char) : List Char := trimRight (l.dropWhile isWsCh)

/-- Model of JavaScript String trim. -/
def jsTrim (s : String) : String := String.mk (jsTrimList s.toList)

/-- Value of a hexadecimal digit character, none for other characters. -/
def hexDigitVal (c : Char) : Option Nat :=
  if '0' ≤ c && c ≤ '9' then some (c.toNat - 48)
  else if 'a' ≤ c && c ≤ 'f' then some (c.toNat - 87)
  else if 'A' ≤ c && c ≤ 'F' then some (c.toNat - 55)
  else none

/-- Digits of the given base read from a character list; none when the
list is empty or contains an invalid digit. -/
def radixDigitsVal (base : Nat) : List Char → Option Nat
  | [] => none
  | l => l.foldl
      (fun acc c =>
        match acc, hexDigitVal c with
        | some a, some d => if d < base then some (base * a + d) else none
        | _, _ => none)
      (some 0)

/-- Whole-string unsigned numeric literal: the word Infinity or a decimal
literal consuming the entire list; NaN otherwise. -/
def numUnsigned (l : List Char) : JSNum :=
  if l = infinityChars then JSNum.posInf
  else
    match parseDecFront l with
    | some (q, []) => JSNum.finite q
    | _ => JSNum.nan

/-- Whole-string unsigned numeric literal allowing the hexadecimal, binary
and octal prefixed forms of the Number conversion. -/
def numRadixOr (l : List Char) : JSNum :=
  if headIs '0' l && (headIs 'x' l.tail || headIs 'X' l.tail) then
    match radixDigitsVal 16 l.tail.tail with
    | some n => JSNum.finite (fracOfInt (n : Int))
    | none => JSNum.nan
  else if headIs '0' l && (headIs 'b' l.tail || headIs 'B' l.tail) then
    match radixDigitsVal 2 l.tail.tail with
    | some n => JSNum.finite (fracOfInt (n : Int))
    | none => JSNum.nan
  else if headIs '0' l && (headIs 'o' l.tail || headIs 'O' l.tail) then
    match radixDigitsVal 8 l.tail.tail with
    | some n => JSNum.finite (fracOfInt (n : Int))
    | none => JSNum.nan
  else numUnsigned l

/-- Sign dispatch of the Number conversion: the empty trimmed string is
zero, a leading sign applies to a whole-string unsigned literal, and an
unsigned string may also use the radix-prefixed forms. -/
def numSigned : List Char → JSNum
  | [] => jsZero
  | c :: t =>
      if c = '+' then numUnsigned t
      else if c = '-' then jsNeg (numUnsigned t)
      else numRadixOr (c :: t)

/-- Model of the JavaScript Number conversion on strings: trim, the empty
string is zero, an optional sign followed by a whole-string literal, or
the unsigned radix-prefixed forms; NaN on anything else. -/
def jsStringToNumber (s : String) : JSNum := numSigned (jsTrimList s.toList)

/-- JavaScript value of the modelled dynamic evaluation: a number or a
string.  The evaluation primitive of the source runs arbitrary
JavaScript; the model covers the fragment built from numeric literals,
quoted string literals, the words Infinity and NaN, the operators
+ - * / with their coercion rules, unary signs and parentheses.  Every
expression outside this fragment falls to the failure path of the model,
so no theorem below may rest on the model failing where the source
succeeds: universally quantified statements either hold of arbitrary
JavaScript as well or carry an explicit hypothesis restricting them to
this fragment. -/
inductive JSVal
  | num (n : JSNum)
  | str (s : String)
deriving DecidableEq, Repr

/-- String form of a JavaScript value, the model of toString on the
evaluation result. -/
def jsValToString : JSVal → String
  | .num n => jsNumToString n
  | .str s => s

/-- The ToNumber conversion on modelled values: numbers unchanged, strings
through the numeric string grammar. -/
def jsToNumber : JSVal → JSNum
  | .num n => n
  | .str s => jsStringToNumber s

/-- JavaScript addition on values: if either operand is a string the
result is the concatenation of the string forms, otherwise numeric
addition. -/
def jsValAdd (a b : JSVal) : JSVal :=
  match a, b with
  | .str _, _ => .str (jsValToString a ++ jsValToString b)
  | _, .str _ => .str (jsValToString a ++ jsValToString b)
  | .num x, .num y => .num (jsAdd x y)

/-- JavaScript subtraction on values: both operands through ToNumber. -/
def jsValSub (a b : JSVal) : JSVal := .num (jsSub (jsToNumber a) (jsToNumber b))

/-- JavaScript multiplication on values: both operands through ToNumber. -/
def jsValMul (a b : JSVal) : JSVal := .num (jsMul (jsToNumber a) (jsToNumber b))

/-- JavaScript division on values: both operands through ToNumber. -/
def jsValDiv (a b : JSVal) : JSVal := .num (jsDiv (jsToNumber a) (jsToNumber b))

/-- JavaScript unary minus on values: ToNumber then negation. -/
def jsValNeg (a : JSVal) : JSVal := .num (jsNeg (jsToNumber a))

/-- JavaScript unary plus on values: ToNumber. -/
def jsValPlus (a : JSVal) : JSVal := .num (jsToNumber a)

/-- Model of the string startsWith check against the one character equals
sign used by the type detector and the formula evaluator. -/
def startsWithEq (s : String) : Bool :=
  match s.toList with
  | c :: _ => c = '='
  | [] => false

/-- Model of JavaScript toLowerCase (ASCII letters suffice here). -/
def jsToLower (s : String) : String := String.map Char.toLower s

/-- Embedding of the columnToLetter loop with structural fuel: the loop
prepends the character of the current remainder and continues on col
divided by 26 minus one while that stays nonnegative; the column index
itself always bounds the iteration count. -/
def columnToLetterGo : Nat → Nat → List Char
  | 0, col => [Char.ofNat (65 + col % 26)]
  | fuel + 1, col =>
      if col < 26 then [Char.ofNat (65 + col % 26)]
      else columnToLetterGo fuel (col / 26 - 1) ++ [Char.ofNat (65 + col % 26)]

/-- Character list of columnToLetter applied to a column index. -/
def columnToLetterAux (col : Nat) : List Char := columnToLetterGo col col

/-- columnToLetter of the source: zero-based column index to its bijective
base-26 letter sequence. -/
def columnToLetter (col : Nat) : String := String.mk (columnToLetterAux col)

/-- letterToColumn of the source: fold over the characters accumulating
result times 26 plus the character code minus 64, then subtract one.  The
result is an integer, matching the unvalidated JavaScript arithmetic. -/
def letterToColumn (letter : String) : Int :=
  (letter.toList.foldl (fun r ch => r * 26 + ((ch.toNat : Int) - 64)) 0) - 1

/-- getCellId of the source: the column letters followed by the one-based
row number in decimal. -/
def getCellId (row col : Nat) : String :=
  columnToLetter col ++ natToDecimal (row + 1)

/-- The full-string address pattern of the source regex: one or more
uppercase letters followed by one or more digits and nothing else.  The
greedy letter group is the maximal uppercase prefix; since a digit can
never match a letter, the regex matches exactly when that prefix is
nonempty and the remainder is a nonempty digit string. -/
def matchesAddressPattern (s : String) : Bool :=
  let l := s.toList
  let letters := l.takeWhile isUpperAZ
  let rest := l.dropWhile isUpperAZ
  !letters.isEmpty && !rest.isEmpty && rest.all isDigitCh

/-- parseCellId of the source: on a pattern match, the row is the digit
group read as a decimal integer minus one and the column comes from
letterToColumn; on a failed match the source throws, modelled as none. -/
def parseCellId (cellId : String) : Option (Int × Int) :=
  let l := cellId.toList
  let letters := l.takeWhile isUpperAZ
  let rest := l.dropWhile isUpperAZ
  if !letters.isEmpty && !rest.isEmpty && rest.all isDigitCh then
    some (((digitsToNat rest : Int) - 1), letterToColumn (String.mk letters))
  else none

/-- Test of the date regex of the source: one or two digits, a slash, one
or two digits, a slash, four digits; or four digits, a dash, two digits, a
dash, two digits; each anchored on both sides.  Since the separators are
not digits, the digit groups are the maximal digit runs. -/
def dateRegexTest (s : String) : Bool :=
  let l := s.toList
  let a := l.takeWhile isDigitCh
  let r1 := l.dropWhile isDigitCh
  let slashForm :=
    (a.length = 1 || a.length = 2) &&
    (match r1 with
     | '/' :: r2 =>
        let b := r2.takeWhile isDigitCh
        let r3 := r2.dropWhile isDigitCh
        (b.length = 1 || b.length = 2) &&
        (match r3 with
         | '/' :: r4 => r4.length = 4 && r4.all isDigitCh
         | _ => false)
     | _ => false)
  let dashForm :=
    a.length = 4 &&
    (match r1 with
     | '-' :: r2 =>
        let b := r2.takeWhile isDigitCh
        let r3 := r2.dropWhile isDigitCh
        b.length = 2 &&
        (match r3 with
         | '-' :: r4 => r4.length = 2 && r4.all isDigitCh
         | _ => false)
     | _ => false)
  slashForm || dashForm

/-- detectCellType of the source: empty or all-whitespace is text, a
leading equals sign is a formula, a non-NaN Number conversion of a
non-whitespace string is a number, then the date regex, then the
case-insensitive boolean words, and otherwise text. -/
def detectCellType (value : String) : CellType :=
  if value == "" || jsTrim value == "" then CellType.text
  else if startsWithEq value then CellType.formula
  else if !(jsIsNaN (jsStringToNumber value)) && !(jsTrim value == "") then CellType.number
  else if dateRegexTest value then CellType.date
  else if jsToLower value == "true" || jsToLower value == "false" then CellType.boolean
  else CellType.text

/-- Segmentation of an expression by the global cell reference regex
replacement: a maximal run of uppercase letters immediately followed by at
least one digit, together with the maximal digit run after it, is a match
and becomes an address segment; every other character is passed through as
literal text.  A letter run not followed by a digit cannot match at any of
its positions, so it is passed through whole.  This reproduces the
leftmost scanning of String replace with the global address regex. -/
def scanSegsGo : Nat → List Char → List (List Char ⊕ String)
  | 0, _ => []
  | fuel + 1, l =>
      match l with
      | [] => []
      | c :: cs =>
          if isUpperAZ c then
            let letters := (c :: cs).takeWhile isUpperAZ
            let rest1 := (c :: cs).dropWhile isUpperAZ
            let digits := rest1.takeWhile isDigitCh
            let rest2 := rest1.dropWhile isDigitCh
            if digits.isEmpty then Sum.inl letters :: scanSegsGo fuel rest1
            else Sum.inr (String.mk (letters ++ digits)) :: scanSegsGo fuel rest2
          else Sum.inl [c] :: scanSegsGo fuel cs

/-- Segmentation of a character list, supplying its length as fuel; every
scanner step consumes at least one character, so the fuel suffices. -/
def scanSegs (l : List Char) : List (List Char ⊕ String) := scanSegsGo l.length l

/-- Characters contributed by one segment, given the replacement function
applied to address segments. -/
def segChars (repl : String → String) : List Char ⊕ String → List Char
  | Sum.inl cs => cs
  | Sum.inr a => (repl a).toList

/-- Regex replacement of every cell reference in a character list by the
given replacement function, via the segmentation. -/
def substList (repl : String → String) (l : List Char) : List Char :=
  (scanSegs l).flatMap (segChars repl)

/-- The address carried by a segment, none for literal text segments. -/
def segRef : List Char ⊕ String → Option String
  | Sum.inl _ => none
  | Sum.inr a => some a

/-- The addresses matched by the cell reference regex in a character list,
in order. -/
def refsOf (l : List Char) : List String := (scanSegs l).filterMap segRef

/-- The replacer of evaluateFormula: look the matched address up in the
cells; a missing cell or an empty value gives the literal 0; otherwise the
value is parsed with parseFloat, a NaN parse gives 0 and any other result
is written back in its string form. -/
def refReplacement (cells : Cells) (addr : String) : String :=
  match cells addr with
  | none => "0"
  | some cell =>
      if cell.value = "" then "0"
      else
        match jsParseFloat cell.value with
        | JSNum.nan => "0"
        | n => jsNumToString n

/-- Substitution step of evaluateFormula: replace every cell reference in
the expression with its numeric replacement string. -/
def substituteRefs (cells : Cells) (body : String) : String :=
  String.mk (substList (refReplacement cells) body.toList)

/-- Tokens of the arithmetic expression language. -/
inductive Tok
  | num (n : JSNum)
  | str (s : String)
  | add
  | sub
  | mul
  | div
  | lp
  | rp
deriving DecidableEq, Repr

/-- Characters that terminate a quoted string literal body: the closing
quote, a backslash or a line terminator.  A raw line terminator inside a
string literal is a syntax error in JavaScript; a backslash starts an
escape sequence, which the model does not interpret, so literals with
escapes fall to the failure path (conservatively: the model never
succeeds where the source fails). -/
def isStrStop (quote : Char) (c : Char) : Bool :=
  c = quote || c = '\\' || c = '\n' || c = '\r'

/-- Tokenizer for the substituted expression, with fuel for termination:
whitespace is skipped, the four operators and parentheses are single
characters, numeric literals use the shared decimal front end, quoted
string literals carry their body, and the words Infinity and NaN denote
their values; any other character fails.  The source accepts further
JavaScript forms (identifiers, brackets, escapes in string literals and
so on); those fall to the failure path here, so no theorem may rely on
this tokenizer failing where the source succeeds. -/
def tokenizeF : Nat → List Char → Option (List Tok)
  | 0, _ => none
  | _, [] => some []
  | fuel + 1, c :: cs =>
      if isWsCh c then tokenizeF fuel cs
      else if c = '+' then (tokenizeF fuel cs).map (Tok.add :: ·)
      else if c = '-' then (tokenizeF fuel cs).map (Tok.sub :: ·)
      else if c = '*' then (tokenizeF fuel cs).map (Tok.mul :: ·)
      else if c = '/' then (tokenizeF fuel cs).map (Tok.div :: ·)
      else if c = '(' then (tokenizeF fuel cs).map (Tok.lp :: ·)
      else if c = ')' then (tokenizeF fuel cs).map (Tok.rp :: ·)
      else if isDigitCh c || c = '.' then
        match parseDecFront (c :: cs) with
        | some (q, rest) => (tokenizeF fuel rest).map (Tok.num (JSNum.finite q) :: ·)
        | none => none
      else if c = '\x27' || c = '"' then
        match cs.dropWhile (fun ch => !isStrStop c ch) with
        | q :: r2 =>
            if q = c then
              (tokenizeF fuel r2).map
                (Tok.str (String.mk (cs.takeWhile (fun ch => !isStrStop c ch))) :: ·)
            else none
        | [] => none
      else if infinityChars.isPrefixOf (c :: cs) then
        (tokenizeF fuel ((c :: cs).drop 8)).map (Tok.num JSNum.posInf :: ·)
      else if (['N', 'a', 'N'] : List Char).isPrefixOf (c :: cs) then
        (tokenizeF fuel ((c :: cs).drop 3)).map (Tok.num JSNum.nan :: ·)
      else none

/-- Tokenize a character list: every step consumes at least one character,
so length plus one fuel always suffices. -/
def tokenize (l : List Char) : Option (List Tok) := tokenizeF (l.length + 1) l

/-!
Recursive descent parser for the modelled expression grammar with the
standard precedence: an expression is a chain of terms under plus and
minus, a term a chain of factors under times and divide, and a factor a
number, a string, a parenthesised expression, or a sign applied to a
factor.  The operators apply the JavaScript coercion rules on values.
Fuel makes termination structural; the top level supplies ample fuel and
a fuel shortfall only yields none, which no theorem below depends on.
-/
mutual

def parseE : Nat → List Tok → Option (JSVal × List Tok)
  | 0, _ => none
  | fuel + 1, toks =>
      match parseT fuel toks with
      | some (v, rest) => parseEL fuel v rest
      | none => none

def parseEL : Nat → JSVal → List Tok → Option (JSVal × List Tok)
  | 0, _, _ => none
  | fuel + 1, v, toks =>
      match toks with
      | Tok.add :: rest =>
          match parseT fuel rest with
          | some (w, r2) => parseEL fuel (jsValAdd v w) r2
          | none => none
      | Tok.sub :: rest =>
          match parseT fuel rest with
          | some (w, r2) => parseEL fuel (jsValSub v w) r2
          | none => none
      | _ => some (v, toks)

def parseT : Nat → List Tok → Option (JSVal × List Tok)
  | 0, _ => none
  | fuel + 1, toks =>
      match parseF fuel toks with
      | some (v, rest) => parseTL fuel v rest
      | none => none

def parseTL : Nat → JSVal → List Tok → Option (JSVal × List Tok)
  | 0, _, _ => none
  | fuel + 1, v, toks =>
      match toks with
      | Tok.mul :: rest =>
          match parseF fuel rest with
          | some (w, r2) => parseTL fuel (jsValMul v w) r2
          | none => none
      | Tok.div :: rest =>
          match parseF fuel rest with
          | some (w, r2) => parseTL fuel (jsValDiv v w) r2
          | none => none
      | _ => some (v, toks)

def parseF : Nat → List Tok → Option (JSVal × List Tok)
  | 0, _ => none
  | fuel + 1, toks =>
      match toks with
      | Tok.add :: rest =>
          match parseF fuel rest with
          | some (v, r2) => some (jsValPlus v, r2)
          | none => none
      | Tok.sub :: rest =>
          match parseF fuel rest with
          | some (v, r2) => some (jsValNeg v, r2)
          | none => none
      | Tok.num n :: rest => some (JSVal.num n, rest)
      | Tok.str s :: rest => some (JSVal.str s, rest)
      | Tok.lp :: rest =>
          match parseE fuel rest with
          | some (v, Tok.rp :: r2) => some (v, r2)
          | _ => none
      | _ => none

end

/-- Evaluate the substituted expression: tokenize, parse a full expression
consuming every token, and return its value; none models the caught
evaluation exception. -/
def evalJSExpr (s : String) : Option JSVal :=
  match tokenize s.toList with
  | none => none
  | some toks =>
      match parseE (3 * toks.length + 3) toks with
      | some (v, []) => some v
      | _ => none

/-- evaluateFormula of the source: a string without a leading equals sign
is returned unchanged; otherwise the body after the equals sign has its
cell references substituted and the resulting expression is evaluated, a
successful evaluation giving the string form of the resulting value and
any failure the literal token of a stored error. -/
def evaluateFormula (formula : String) (cells : Cells) : String :=
  if !startsWithEq formula then formula
  else
    let expression := substituteRefs cells (formula.drop 1)
    match evalJSExpr expression with
    | some val => jsValToString val
    | none => "#ERROR"

/-- handleCellValueChange of the source (the setCellValue of the spec):
compute the address and the detected type, evaluate the value against the
current cells when it is a formula, build a whole new cell record whose
formula field is present exactly for formulas, and replace the entry at
the address.  The toast notification side effect is excluded. -/
def handleCellValueChange (row col : Nat) (value : String) (cells : Cells) : Cells :=
  let cellId := getCellId row col
  let type := detectCellType value
  let processedValue := if type = CellType.formula then evaluateFormula value cells else value
  let newCell : Cell :=
    { id := cellId, row := row, col := col, value := processedValue,
      formula := if type = CellType.formula then some value else none,
      type := type, style := none }
  fun a => if a = cellId then some newCell else cells a

/-- The cell references of a committed input: the addresses matched by the
reference regex in the body after the equals sign. -/
def formulaRefs (value : String) : List String := refsOf (value.drop 1).toList

/-- Cells of the spec example for substitution: only A1 holds the value 3. -/
def exampleCellsA1 : Cells := fun a =>
  if a = "A1" then
    some { id := "A1", row := 0, col := 0, value := "3", type := CellType.number }
  else none

/-- The record committed for the formula input used by the claim C2
witness. -/
def exampleFormulaRecord : Cell :=
  { id := "A1", row := 0, col := 0, value := "3", formula := some "=1+2",
    type := CellType.formula, style := none }

/-- The record committed for the string literal formula used by the
counterexamples of claims C2 and C3: the evaluation primitive returns the
string itself, which is stored as the value. -/
def exampleStringRecord : Cell :=
  { id := "A1", row := 0, col := 0, value := "a", formula := some "=\"a\"",
    type := CellType.formula, style := none }

/-- Modelled from the spec wording of claim C5: the entire trimmed string
parses as a finite numeric literal and the string is nonempty after
trimming. -/
def parsesAsFiniteNumericLiteral (v : String) : Bool :=
  !(jsTrim v == "") &&
    (match jsStringToNumber v with
     | JSNum.finite _ => true
     | _ => false)

/-! Helper lemmas about characters and list scanning. -/

theorem upperChar_toNat {m : Nat} (h : m < 26) : (Char.ofNat (65 + m)).toNat = 65 + m := by
  interval_cases m <;> decide

theorem upperChar_isUpper {m : Nat} (h : m < 26) : isUpperAZ (Char.ofNat (65 + m)) = true := by
  interval_cases m <;> decide

theorem digitChar_toNat {m : Nat} (h : m < 10) : (Char.ofNat (48 + m)).toNat = 48 + m := by
  interval_cases m <;> decide

theorem digitChar_isDigit {m : Nat} (h : m < 10) : isDigitCh (Char.ofNat (48 + m)) = true := by
  interval_cases m <;> decide

theorem digitChar_val {m : Nat} (h : m < 10) : digitVal (Char.ofNat (48 + m)) = m := by
  interval_cases m <;> decide

theorem digit_not_upper {c : Char} (h : isDigitCh c = true) : isUpperAZ c = false := by
  simp only [isDigitCh, Bool.and_eq_true, decide_eq_true_eq] at h
  simp only [isUpperAZ, Bool.and_eq_false_iff, decide_eq_false_iff_not]
  omega

theorem takeWhile_append_all {p : Char → Bool} :
    ∀ l1 l2 : List Char, (∀ c ∈ l1, p c = true) →
      (l1 ++ l2).takeWhile p = l1 ++ l2.takeWhile p := by
  intro l1
  induction l1 with
  | nil => intro l2 _; simp
  | cons c cs ih =>
      intro l2 h
      have hc : p c = true := h c (List.mem_cons_self c cs)
      simp only [List.cons_append, List.takeWhile_cons_of_pos hc, List.cons.injEq, true_and]
      exact ih l2 (fun x hx => h x (List.mem_cons_of_mem c hx))

theorem dropWhile_append_all {p : Char → Bool} :
    ∀ l1 l2 : List Char, (∀ c ∈ l1, p c = true) →
      (l1 ++ l2).dropWhile p = l2.dropWhile p := by
  intro l1
  induction l1 with
  | nil => intro l2 _; simp
  | cons c cs ih =>
      intro l2 h
      have hc : p c = true := h c (List.mem_cons_self c cs)
      simp only [List.cons_append, List.dropWhile_cons_of_pos hc]
      exact ih l2 (fun x hx => h x (List.mem_cons_of_mem c hx))

theorem takeWhile_all {p : Char → Bool} {l : List Char} (h : ∀ c ∈ l, p c = true) :
    l.takeWhile p = l := by
  have := takeWhile_append_all l [] h
  simpa using this

theorem dropWhile_all {p : Char → Bool} {l : List Char} (h : ∀ c ∈ l, p c = true) :
    l.dropWhile p = [] := by
  have := dropWhile_append_all l [] h
  simpa using this

/-! Digits of a natural number: shape and round trip with digitsToNat. -/

theorem natToDecimalGo_digits (fuel : Nat) :
    ∀ n : Nat, ∀ c ∈ natToDecimalGo fuel n, isDigitCh c = true := by
  induction fuel with
  | zero =>
      intro n c hc
      simp only [natToDecimalGo, List.mem_singleton] at hc
      subst hc
      exact digitChar_isDigit (Nat.mod_lt _ (by omega))
  | succ fuel ih =>
      intro n c hc
      by_cases h : n < 10
      · simp only [natToDecimalGo, if_pos h, List.mem_singleton] at hc
        subst hc
        exact digitChar_isDigit (Nat.mod_lt _ (by omega))
      · simp only [natToDecimalGo, if_neg h, List.mem_append, List.mem_singleton] at hc
        rcases hc with hc | hc
        · exact ih _ c hc
        · subst hc
          exact digitChar_isDigit (Nat.mod_lt _ (by omega))

theorem natToDecimalGo_ne_nil (fuel n : Nat) : natToDecimalGo fuel n ≠ [] := by
  cases fuel with
  | zero => simp [natToDecimalGo]
  | succ fuel =>
      by_cases h : n < 10 <;> simp [natToDecimalGo, h]

theorem foldl_natToDecimalGo (fuel : Nat) :
    ∀ n : Nat, n ≤ fuel → ∀ a : Nat,
      (natToDecimalGo fuel n).foldl (fun acc c => 10 * acc + digitVal c) a
        = a * 10 ^ (natToDecimalGo fuel n).length + n := by
  induction fuel with
  | zero =>
      intro n hn a
      interval_cases n
      simp only [natToDecimalGo, List.foldl_cons, List.foldl_nil, List.length_singleton,
        pow_one]
      rw [show digitVal (Char.ofNat (48 + 0 % 10)) = 0 from by decide]
      omega
  | succ fuel ih =>
      intro n hn a
      by_cases h : n < 10
      · have hmod : n % 10 = n := Nat.mod_eq_of_lt h
        simp only [natToDecimalGo, if_pos h, List.foldl_cons, List.foldl_nil,
          List.length_singleton, pow_one]
        rw [digitChar_val (Nat.mod_lt _ (by omega)), hmod]
        omega
      · have hd : n / 10 ≤ fuel := by
          have : n / 10 < n := Nat.div_lt_self (by omega) (by omega)
          omega
        simp only [natToDecimalGo, if_neg h, List.foldl_append, List.foldl_cons,
          List.foldl_nil, List.length_append, List.length_singleton]
        rw [ih (n / 10) hd a, digitChar_val (Nat.mod_lt _ (by omega))]
        rw [pow_succ, ← mul_assoc]
        have hdm := Nat.div_add_mod n 10
        generalize a * 10 ^ (natToDecimalGo fuel (n / 10)).length = X
        omega

theorem digitsToNat_natToDecimalAux (n : Nat) : digitsToNat (natToDecimalAux n) = n := by
  unfold digitsToNat natToDecimalAux
  rw [foldl_natToDecimalGo n n (Nat.le_refl n) 0]
  simp

/-! Column letters: shape and round trip with letterToColumn. -/

theorem columnToLetterGo_upper (fuel : Nat) :
    ∀ col : Nat, ∀ c ∈ columnToLetterGo fuel col, isUpperAZ c = true := by
  induction fuel with
  | zero =>
      intro col c hc
      simp only [columnToLetterGo, List.mem_singleton] at hc
      subst hc
      exact upperChar_isUpper (Nat.mod_lt _ (by omega))
  | succ fuel ih =>
      intro col c hc
      by_cases h : col < 26
      · simp only [columnToLetterGo, if_pos h, List.mem_singleton] at hc
        subst hc
        exact upperChar_isUpper (Nat.mod_lt _ (by omega))
      · simp only [columnToLetterGo, if_neg h, List.mem_append, List.mem_singleton] at hc
        rcases hc with hc | hc
        · exact ih _ c hc
        · subst hc
          exact upperChar_isUpper (Nat.mod_lt _ (by omega))

theorem columnToLetterGo_ne_nil (fuel col : Nat) : columnToLetterGo fuel col ≠ [] := by
  cases fuel with
  | zero => simp [columnToLetterGo]
  | succ fuel =>
      by_cases h : col < 26 <;> simp [columnToLetterGo, h]

theorem foldl_columnToLetterGo (fuel : Nat) :
    ∀ col : Nat, col ≤ fuel → ∀ a : Int,
      (columnToLetterGo fuel col).foldl (fun r ch => r * 26 + ((ch.toNat : Int) - 64)) a
        = a * 26 ^ (columnToLetterGo fuel col).length + (col + 1) := by
  induction fuel with
  | zero =>
      intro col hcol a
      interval_cases col
      simp only [columnToLetterGo, List.foldl_cons, List.foldl_nil, List.length_singleton,
        pow_one]
      rw [show ((Char.ofNat (65 + 0 % 26)).toNat : Int) = 65 from by decide]
      omega
  | succ fuel ih =>
      intro col hcol a
      by_cases h : col < 26
      · have hmod : col % 26 = col := Nat.mod_eq_of_lt h
        simp only [columnToLetterGo, if_pos h, List.foldl_cons, List.foldl_nil,
          List.length_singleton, pow_one]
        rw [upperChar_toNat (Nat.mod_lt _ (by omega)), hmod]
        push_cast
        omega
      · have hd : col / 26 - 1 ≤ fuel := by
          have : col / 26 < col := Nat.div_lt_self (by omega) (by omega)
          omega
        simp only [columnToLetterGo, if_neg h, List.foldl_append, List.foldl_cons,
          List.foldl_nil, List.length_append, List.length_singleton]
        rw [ih (col / 26 - 1) hd a, upperChar_toNat (Nat.mod_lt _ (by omega))]
        rw [pow_succ, ← mul_assoc]
        have hdm := Nat.div_add_mod col 26
        generalize a * (26 : Int) ^ (columnToLetterGo fuel (col / 26 - 1)).length = X
        push_cast
        omega

theorem letterToColumn_columnToLetter (col : Nat) :
    letterToColumn (columnToLetter col) = (col : Int) := by
  unfold letterToColumn columnToLetter columnToLetterAux
  show (columnToLetterGo col col).foldl (fun r ch => r * 26 + ((ch.toNat : Int) - 64)) 0 - 1
      = (col : Int)
  rw [foldl_columnToLetterGo col col (Nat.le_refl col) 0]
  simp

theorem getCellId_toList (row col : Nat) :
    (getCellId row col).toList = columnToLetterAux col ++ natToDecimalAux (row + 1) := rfl

theorem parseCellId_getCellId (row col : Nat) :
    parseCellId (getCellId row col) = some ((row : Int), (col : Int)) := by
  have hLu : ∀ ch ∈ columnToLetterAux col, isUpperAZ ch = true := columnToLetterGo_upper col col
  have hDd : ∀ ch ∈ natToDecimalAux (row + 1), isDigitCh ch = true :=
    natToDecimalGo_digits (row + 1) (row + 1)
  obtain ⟨d, D', hD⟩ : ∃ d D', natToDecimalAux (row + 1) = d :: D' := by
    cases hD2 : natToDecimalAux (row + 1) with
    | nil => exact absurd hD2 (natToDecimalGo_ne_nil (row + 1) (row + 1))
    | cons d D' => exact ⟨d, D', rfl⟩
  obtain ⟨l0, L', hL⟩ : ∃ l0 L', columnToLetterAux col = l0 :: L' := by
    cases hL2 : columnToLetterAux col with
    | nil => exact absurd hL2 (columnToLetterGo_ne_nil col col)
    | cons l0 L' => exact ⟨l0, L', rfl⟩
  have hdnotu : isUpperAZ d = false :=
    digit_not_upper (hDd d (by rw [hD]; exact List.mem_cons_self d D'))
  have htake : ((getCellId row col).toList).takeWhile isUpperAZ = columnToLetterAux col := by
    rw [getCellId_toList, takeWhile_append_all _ _ hLu, hD,
      List.takeWhile_cons_of_neg (by simp [hdnotu])]
    simp
  have hdrop : ((getCellId row col).toList).dropWhile isUpperAZ = natToDecimalAux (row + 1) := by
    rw [getCellId_toList, dropWhile_append_all _ _ hLu, hD,
      List.dropWhile_cons_of_neg (by simp [hdnotu])]
  unfold parseCellId
  simp only [htake, hdrop]
  have hcond : (!(columnToLetterAux col).isEmpty && !(natToDecimalAux (row + 1)).isEmpty &&
      (natToDecimalAux (row + 1)).all isDigitCh) = true := by
    rw [hD, hL]
    simp only [List.isEmpty_cons, Bool.not_false, Bool.true_and, Bool.and_eq_true,
      List.all_eq_true]
    intro x hx
    exact hDd x (by rw [hD]; exact hx)
  rw [if_pos hcond]
  have hdig : digitsToNat (natToDecimalAux (row + 1)) = row + 1 :=
    digitsToNat_natToDecimalAux (row + 1)
  have hcol : letterToColumn (String.mk (columnToLetterAux col)) = (col : Int) :=
    letterToColumn_columnToLetter col
  rw [hdig, hcol]
  simp only [Option.some.injEq, Prod.mk.injEq]
  refine ⟨?_, trivial⟩
  push_cast
  omega

theorem parseCellId_isSome_eq (s : String) :
    (parseCellId s).isSome = matchesAddressPattern s := by
  unfold parseCellId matchesAddressPattern
  by_cases h : (!(s.toList.takeWhile isUpperAZ).isEmpty &&
      !(s.toList.dropWhile isUpperAZ).isEmpty &&
      (s.toList.dropWhile isUpperAZ).all isDigitCh) = true
  · rw [if_pos h, h]
    rfl
  · rw [if_neg h]
    rw [Bool.not_eq_true] at h
    rw [h]
    rfl

/-! Substitution: the replacement result depends only on the cells at the
matched references. -/

theorem flatMap_segChars_congr (r₁ r₂ : String → String) :
    ∀ segs : List (List Char ⊕ String),
      (∀ a ∈ segs.filterMap segRef, r₁ a = r₂ a) →
      segs.flatMap (segChars r₁) = segs.flatMap (segChars r₂) := by
  intro segs
  induction segs with
  | nil => intro _; rfl
  | cons seg rest ih =>
      intro h
      cases seg with
      | inl cs =>
          simp only [List.flatMap_cons, segChars]
          rw [ih (fun a ha => h a (by simp [List.filterMap_cons, segRef, ha]))]
      | inr addr =>
          simp only [List.flatMap_cons, segChars]
          have hr : r₁ addr = r₂ addr :=
            h addr (by simp [List.filterMap_cons, segRef])
          rw [hr, ih (fun a ha => h a (by simp [List.filterMap_cons, segRef, ha]))]

theorem substList_congr (r₁ r₂ : String → String) (l : List Char)
    (h : ∀ a ∈ refsOf l, r₁ a = r₂ a) : substList r₁ l = substList r₂ l :=
  flatMap_segChars_congr r₁ r₂ (scanSegs l) h

theorem substituteRefs_congr (c₁ c₂ : Cells) (body : String)
    (h : ∀ a ∈ refsOf body.toList, c₁ a = c₂ a) :
    substituteRefs c₁ body = substituteRefs c₂ body := by
  unfold substituteRefs
  congr 1
  apply substList_congr
  intro a ha
  unfold refReplacement
  rw [h a ha]

theorem evaluateFormula_congr (v : String) (c₁ c₂ : Cells)
    (h : ∀ a ∈ formulaRefs v, c₁ a = c₂ a) :
    evaluateFormula v c₁ = evaluateFormula v c₂ := by
  unfold evaluateFormula
  by_cases hs : startsWithEq v = true
  · rw [hs]
    simp only [Bool.not_true, Bool.false_eq_true, if_false]
    rw [substituteRefs_congr c₁ c₂ (v.drop 1) h]
  · rw [Bool.not_eq_true] at hs
    rw [hs]
    rfl

/-- Frame property of the store update: only the entry at the target
address changes. -/
theorem handleCellValueChange_frame (cells : Cells) (r c : Nat) (v : String) (a : String)
    (h : a ≠ getCellId r c) : handleCellValueChange r c v cells a = cells a := by
  unfold handleCellValueChange
  simp only [if_neg h]

/-- Shape of a formula evaluation result: the string form of a value or
the error token. -/
theorem evaluateFormula_shape (f : String) (cells : Cells) (h : startsWithEq f = true) :
    (∃ val : JSVal, evaluateFormula f cells = jsValToString val) ∨
      evaluateFormula f cells = "#ERROR" := by
  unfold evaluateFormula
  rw [h]
  simp only [Bool.not_true, Bool.false_eq_true, if_false]
  cases hE : evalJSExpr (substituteRefs cells (f.drop 1)) with
  | some val => exact Or.inl ⟨val, by simp [hE]⟩
  | none => exact Or.inr (by simp [hE])

/-! The type detector and the Number conversion on strings with a leading
equals sign. -/

theorem startsWithEq_toList {v : String} (h : startsWithEq v = true) :
    ∃ t, v.toList = '=' :: t := by
  unfold startsWithEq at h
  cases hl : v.toList with
  | nil => rw [hl] at h; simp at h
  | cons c t =>
      rw [hl] at h
      simp only [decide_eq_true_eq] at h
      exact ⟨t, by rw [h]⟩

theorem trimRight_eqHead (t : List Char) : ∃ r, trimRight ('=' :: t) = '=' :: r := by
  show ∃ r, (match trimRight t with
    | [] => if isWsCh '=' then [] else ['=']
    | r => '=' :: r) = '=' :: r
  cases htr : trimRight t with
  | nil => exact ⟨[], by decide⟩
  | cons x xs => exact ⟨x :: xs, rfl⟩

theorem jsTrimList_eqHead (t : List Char) : ∃ r, jsTrimList ('=' :: t) = '=' :: r := by
  unfold jsTrimList
  rw [List.dropWhile_cons_of_neg (by decide)]
  exact trimRight_eqHead t

theorem parseDecFront_eqHead (r : List Char) : parseDecFront ('=' :: r) = none := by
  unfold parseDecFront
  rw [List.takeWhile_cons_of_neg (by decide), List.dropWhile_cons_of_neg (by decide)]
  simp [headIs, show (('=' : Char) = '.') = False from by simp]

theorem numUnsigned_eqHead (r : List Char) : numUnsigned ('=' :: r) = JSNum.nan := by
  unfold numUnsigned
  rw [if_neg (by simp [infinityChars])]
  rw [parseDecFront_eqHead]

theorem numRadixOr_eqHead (r : List Char) : numRadixOr ('=' :: r) = JSNum.nan := by
  unfold numRadixOr
  rw [if_neg (by simp [headIs]), if_neg (by simp [headIs]), if_neg (by simp [headIs])]
  exact numUnsigned_eqHead r

theorem jsStringToNumber_eqHead (v : String) (h : startsWithEq v = true) :
    jsStringToNumber v = JSNum.nan := by
  obtain ⟨t, ht⟩ := startsWithEq_toList h
  unfold jsStringToNumber
  rw [ht]
  obtain ⟨r, hr⟩ := jsTrimList_eqHead t
  rw [hr]
  show (if ('=' : Char) = '+' then numUnsigned r
    else if ('=' : Char) = '-' then jsNeg (numUnsigned r)
    else numRadixOr ('=' :: r)) = JSNum.nan
  rw [if_neg (by decide), if_neg (by decide)]
  exact numRadixOr_eqHead r

theorem jsTrim_empty : jsTrim "" = "" := rfl

theorem detectCellType_formula_starts {v : String}
    (h : detectCellType v = CellType.formula) : startsWithEq v = true := by
  unfold detectCellType at h
  by_cases h1 : (v == "" || jsTrim v == "") = true
  · rw [if_pos h1] at h
    exact absurd h (by decide)
  · rw [if_neg h1] at h
    by_cases h2 : startsWithEq v = true
    · exact h2
    · rw [Bool.not_eq_true] at h2
      rw [h2] at h
      simp only [Bool.false_eq_true, if_false] at h
      exfalso
      split at h
      · exact absurd h (by decide)
      · split at h
        · exact absurd h (by decide)
        · split at h
          · exact absurd h (by decide)
          · exact absurd h (by decide)

theorem detectCellType_starts_formula {v : String} (hs : startsWithEq v = true)
    (h1 : (v == "" || jsTrim v == "") = false) :
    detectCellType v = CellType.formula := by
  unfold detectCellType
  rw [h1]
  simp only [Bool.false_eq_true, if_false]
  rw [hs]
  rfl

theorem detectCellType_number_iff (v : String) :
    detectCellType v = CellType.number ↔
      (jsTrim v ≠ "" ∧ jsIsNaN (jsStringToNumber v) = false) := by
  unfold detectCellType
  by_cases h1 : (v == "" || jsTrim v == "") = true
  · rw [if_pos h1]
    constructor
    · intro h; exact absurd h (by decide)
    · rintro ⟨htrim, _⟩
      exfalso
      simp only [Bool.or_eq_true, beq_iff_eq] at h1
      rcases h1 with h1 | h1
      · exact htrim (by rw [h1]; rfl)
      · exact htrim h1
  · rw [if_neg h1]
    by_cases h2 : startsWithEq v = true
    · rw [h2]
      simp only [if_true]
      constructor
      · intro h; exact absurd h (by decide)
      · rintro ⟨_, hnan⟩
        exfalso
        rw [jsStringToNumber_eqHead v h2] at hnan
        simp [jsIsNaN] at hnan
    · rw [Bool.not_eq_true] at h2
      rw [h2]
      simp only [Bool.false_eq_true, if_false]
      by_cases h3 : (!(jsIsNaN (jsStringToNumber v)) && !(jsTrim v == "")) = true
      · rw [if_pos h3]
        simp only [Bool.and_eq_true, Bool.not_eq_true'] at h3
        constructor
        · intro _
          refine ⟨?_, h3.1⟩
          intro he
          rw [he] at h3
          simp at h3
        · intro _; rfl
      · rw [if_neg h3]
        constructor
        · intro h
          exfalso
          split at h
          · exact absurd h (by decide)
          · split at h
            · exact absurd h (by decide)
            · exact absurd h (by decide)
        · rintro ⟨htrim, hnan⟩
          exfalso
          apply h3
          simp only [Bool.and_eq_true, Bool.not_eq_true', hnan, true_and]
          simp only [beq_eq_false_iff_ne, ne_eq]
          exact htrim

/-! Idempotence of the store update away from self reference. -/

theorem handleCellValueChange_idem_core (cells : Cells) (r c : Nat) (v : String)
    (h : detectCellType v = CellType.formula → getCellId r c ∉ formulaRefs v) :
    handleCellValueChange r c v (handleCellValueChange r c v cells)
      = handleCellValueChange r c v cells := by
  have hval : (if detectCellType v = CellType.formula
        then evaluateFormula v (handleCellValueChange r c v cells) else v)
      = (if detectCellType v = CellType.formula then evaluateFormula v cells else v) := by
    by_cases hf : detectCellType v = CellType.formula
    · rw [if_pos hf, if_pos hf]
      apply evaluateFormula_congr
      intro a ha
      have hne : a ≠ getCellId r c := fun he => (h hf) (he ▸ ha)
      exact handleCellValueChange_frame cells r c v a hne
    · rw [if_neg hf, if_neg hf]
  funext a
  show (fun a => if a = getCellId r c then some
      { id := getCellId r c, row := r, col := c,
        value := if detectCellType v = CellType.formula
          then evaluateFormula v (handleCellValueChange r c v cells) else v,
        formula := if detectCellType v = CellType.formula then some v else none,
        type := detectCellType v, style := none }
      else handleCellValueChange r c v cells a) a
    = handleCellValueChange r c v cells a
  by_cases ha : a = getCellId r c
  · simp only [ha, if_pos rfl]
    rw [hval]
    show some _ = handleCellValueChange r c v cells (getCellId r c)
    unfold handleCellValueChange
    simp
  · simp only [if_neg ha]

/-! The record committed by the store update. -/

theorem handleCellValueChange_lookup (cells : Cells) (r c : Nat) (v : String) :
    handleCellValueChange r c v cells (getCellId r c) = some
      { id := getCellId r c, row := r, col := c,
        value := if detectCellType v = CellType.formula then evaluateFormula v cells else v,
        formula := if detectCellType v = CellType.formula then some v else none,
        type := detectCellType v, style := none } := by
  unfold handleCellValueChange
  simp

/-! A lone address is replaced as a whole, and a formula applying a named
function to a colon range never tokenizes. -/

theorem scanSegsGo_nil_any (fuel : Nat) : scanSegsGo fuel [] = [] := by
  cases fuel <;> rfl

theorem scanSegsGo_addr (fuel : Nat) (L D : List Char)
    (hL : L ≠ []) (hD : D ≠ [])
    (hLu : ∀ ch ∈ L, isUpperAZ ch = true) (hDd : ∀ ch ∈ D, isDigitCh ch = true)
    (hlen : (L ++ D).length ≤ fuel) :
    scanSegsGo fuel (L ++ D) = [Sum.inr (String.mk (L ++ D))] := by
  obtain ⟨c, L', rfl⟩ : ∃ c L', L = c :: L' := by
    cases L with
    | nil => exact absurd rfl hL
    | cons c L' => exact ⟨c, L', rfl⟩
  obtain ⟨d, D', rfl⟩ : ∃ d D', D = d :: D' := by
    cases D with
    | nil => exact absurd rfl hD
    | cons d D' => exact ⟨d, D', rfl⟩
  cases fuel with
  | zero => simp at hlen
  | succ f =>
      have hcu : isUpperAZ c = true := hLu c (List.mem_cons_self _ _)
      have hdd : isDigitCh d = true := hDd d (List.mem_cons_self _ _)
      have hdnu : isUpperAZ d = false := digit_not_upper hdd
      have htake : ((c :: L') ++ (d :: D')).takeWhile isUpperAZ = c :: L' := by
        rw [takeWhile_append_all _ _ hLu, List.takeWhile_cons_of_neg (by simp [hdnu])]
        simp
      have hdrop : ((c :: L') ++ (d :: D')).dropWhile isUpperAZ = d :: D' := by
        rw [dropWhile_append_all _ _ hLu, List.dropWhile_cons_of_neg (by simp [hdnu])]
      have hdtake : (d :: D').takeWhile isDigitCh = d :: D' := takeWhile_all hDd
      have hddrop : (d :: D').dropWhile isDigitCh = [] := dropWhile_all hDd
      simp only [List.cons_append] at htake hdrop ⊢
      simp only [scanSegsGo, hcu, if_true, htake, hdrop, hdtake, hddrop,
        List.isEmpty_cons, Bool.false_eq_true, if_false, scanSegsGo_nil_any]
      simp

theorem substituteRefs_single_addr (cells : Cells) (L D : List Char)
    (hL : L ≠ []) (hD : D ≠ [])
    (hLu : ∀ ch ∈ L, isUpperAZ ch = true) (hDd : ∀ ch ∈ D, isDigitCh ch = true) :
    substituteRefs cells (String.mk (L ++ D)) = refReplacement cells (String.mk (L ++ D)) := by
  unfold substituteRefs substList scanSegs
  rw [show (String.mk (L ++ D)).toList = L ++ D from rfl]
  rw [scanSegsGo_addr _ L D hL hD hLu hDd (Nat.le_refl _)]
  simp only [List.flatMap_cons, List.flatMap_nil, segChars, List.append_nil]
  rfl

theorem tokenizeF_headS (fuel : Nat) (rest : List Char) :
    tokenizeF fuel ('S' :: rest) = none := by
  cases fuel with
  | zero => rfl
  | succ f => rfl

theorem substList_SUM (repl : String → String) :
    ∃ rest, substList repl ("SUM(A1:A10)".toList) = 'S' :: rest := by
  have hscan : scanSegs ("SUM(A1:A10)".toList) =
      [Sum.inl ['S', 'U', 'M'], Sum.inl ['('], Sum.inr "A1", Sum.inl [':'],
        Sum.inr "A10", Sum.inl [')']] := by decide
  unfold substList
  rw [hscan]
  simp only [List.flatMap_cons, List.flatMap_nil, segChars, List.cons_append,
    List.append_nil]
  exact ⟨_, rfl⟩

theorem evalJSExpr_headS (s : String) (rest : List Char) (h : s.toList = 'S' :: rest) :
    evalJSExpr s = none := by
  unfold evalJSExpr tokenize
  rw [h, tokenizeF_headS]

theorem evaluateFormula_SUM (cells : Cells) :
    evaluateFormula "=SUM(A1:A10)" cells = "#ERROR" := by
  unfold evaluateFormula
  rw [show startsWithEq "=SUM(A1:A10)" = true from by decide]
  simp only [Bool.not_true, Bool.false_eq_true, if_false]
  have hbody : ("=SUM(A1:A10)".drop 1) = "SUM(A1:A10)" := by decide
  rw [hbody]
  obtain ⟨rest, hr⟩ := substList_SUM (refReplacement cells)
  rw [evalJSExpr_headS _ rest (by rw [show (substituteRefs cells "SUM(A1:A10)").toList
    = substList (refReplacement cells) ("SUM(A1:A10)".toList) from rfl, hr])]

/-! The string form of a number never equals a plain lowercase string:
its first character is a digit, a minus sign or the initial of Infinity
or NaN. -/

theorem natToDecimalAux_head (n : Nat) :
    ∃ c rest, natToDecimalAux n = c :: rest ∧ isDigitCh c = true := by
  cases h : natToDecimalAux n with
  | nil => exact absurd h (natToDecimalGo_ne_nil n n)
  | cons c rest =>
      refine ⟨c, rest, rfl, ?_⟩
      have hmem : c ∈ natToDecimalGo n n := by
        have h2 : natToDecimalGo n n = c :: rest := h
        rw [h2]
        exact List.mem_cons_self c rest
      exact natToDecimalGo_digits n n c hmem

theorem ratNonnegToString_head (q : Frac) :
    ∃ c rest, (ratNonnegToString q).toList = c :: rest ∧ isDigitCh c = true := by
  obtain ⟨c, rest, hc, hd⟩ := natToDecimalAux_head (q.num.toNat / q.den)
  have hEq : ratNonnegToString q = (if q.num.toNat % q.den = 0
      then natToDecimal (q.num.toNat / q.den)
      else natToDecimal (q.num.toNat / q.den) ++ "." ++
        String.mk (fracDigits 17 (q.num.toNat % q.den) q.den)) := rfl
  rw [hEq]
  by_cases h : q.num.toNat % q.den = 0
  · rw [if_pos h]
    exact ⟨c, rest, by rw [show (natToDecimal (q.num.toNat / q.den)).toList
      = natToDecimalAux (q.num.toNat / q.den) from rfl, hc], hd⟩
  · rw [if_neg h]
    refine ⟨c, rest ++ ('.' :: fracDigits 17 (q.num.toNat % q.den) q.den), ?_, hd⟩
    rw [show (natToDecimal (q.num.toNat / q.den) ++ "." ++
        String.mk (fracDigits 17 (q.num.toNat % q.den) q.den)).toList
      = (natToDecimalAux (q.num.toNat / q.den) ++ ['.'])
          ++ fracDigits 17 (q.num.toNat % q.den) q.den from rfl]
    rw [hc]
    simp

theorem jsNumToString_ne_a (n : JSNum) : jsNumToString n ≠ "a" := by
  intro h
  cases n with
  | finite q =>
      have hEq : jsNumToString (JSNum.finite q)
          = (if q.num < 0 then "-" ++ ratNonnegToString (fracNeg q)
             else ratNonnegToString q) := rfl
      rw [hEq] at h
      by_cases hneg : q.num < 0
      · rw [if_pos hneg] at h
        have htl := congrArg String.toList h
        rw [show ("-" ++ ratNonnegToString (fracNeg q)).toList
          = '-' :: (ratNonnegToString (fracNeg q)).toList from rfl,
          show ("a" : String).toList = ['a'] from rfl] at htl
        simp at htl
      · rw [if_neg hneg] at h
        obtain ⟨c, rest, hc, hd⟩ := ratNonnegToString_head q
        have htl := congrArg String.toList h
        rw [hc, show ("a" : String).toList = ['a'] from rfl] at htl
        simp only [List.cons.injEq] at htl
        rw [htl.1] at hd
        exact absurd hd (by decide)
  | posInf => exact absurd h (by decide)
  | negInf => exact absurd h (by decide)
  | nan => exact absurd h (by decide)

/-! Claim theorems. -/

/-- Claim C1 (counterexample): setCellValue is not idempotent as claimed
when the committed formula references its own target address.  Committing
the formula that adds one to A1 at the address A1 twice in succession
yields the stored value 2 at A1, while a single commit yields 1, so the
two stores differ at A1. -/
theorem setCellValue_not_idempotent_selfRef :
    handleCellValueChange 0 0 "=A1+1" (handleCellValueChange 0 0 "=A1+1" emptyCells) "A1"
      ≠ handleCellValueChange 0 0 "=A1+1" emptyCells "A1" := by decide

/-- Claim C1 (amended): applying setCellValue twice in succession with the
same row, column and input yields a store identical to applying it once,
provided that, when the input is a formula, its referenced addresses do
not include the target address itself and its substituted expression
evaluates within the modelled number-and-string expression fragment, on
which the dynamic evaluation of the source is a pure function of the
expression text.  The second application evaluates against the collection
produced by the first, which differs from the original only at the target
address, so the substituted expression and hence the committed record are
unchanged.  Self-referencing formulas (see the counterexample) and
formulas whose evaluation is not a pure function of the expression text,
such as a call of a random number generator, lie outside the amended
claim. -/
theorem setCellValue_idempotent_of_no_selfRef (cells : Cells) (r c : Nat) (v : String)
    (h : detectCellType v = CellType.formula →
      getCellId r c ∉ formulaRefs v ∧
        (evalJSExpr (substituteRefs cells (v.drop 1))).isSome = true) :
    handleCellValueChange r c v (handleCellValueChange r c v cells)
      = handleCellValueChange r c v cells :=
  handleCellValueChange_idem_core cells r c v (fun hf => (h hf).1)

/-- Witness for the amended claim C1 at a formula referencing a different
address whose substituted expression is plain arithmetic. -/
theorem setCellValue_idempotent_witness :
    handleCellValueChange 0 0 "=B1+1" (handleCellValueChange 0 0 "=B1+1" emptyCells)
      = handleCellValueChange 0 0 "=B1+1" emptyCells :=
  setCellValue_idempotent_of_no_selfRef emptyCells 0 0 "=B1+1" (by decide)

/-- Claim C2 (counterexample): committing the string literal formula at A1
stores the string a as the value, because the dynamic evaluation returns
the string itself; that value is neither the string form of a number nor
the error token, so the claimed value form for formula cells fails at
this input. -/
theorem cell_record_counterexample :
    handleCellValueChange 0 0 "=\"a\"" emptyCells "A1" = some exampleStringRecord ∧
    exampleStringRecord.type = CellType.formula ∧
    ¬((∃ n : JSNum, exampleStringRecord.value = jsNumToString n) ∨
      exampleStringRecord.value = "#ERROR") := by
  refine ⟨by decide, by decide, ?_⟩
  rintro (⟨n, hn⟩ | h)
  · exact jsNumToString_ne_a n hn.symm
  · exact absurd h (by decide)

/-- Claim C2 (amended): every record committed by the store update has the
canonical address of its row and column as id, stores the given row and
column, has the formula type exactly when the formula field is present,
and in that case the formula field holds the original equals-prefixed
input while the value is the string form of the evaluated value — not
necessarily of a number, since the dynamic evaluation can return a
non-numeric value such as a string — or the error token; a non-formula
commit always stores the raw input with no formula field, so committing a
non-formula value over a previous formula leaves no residual formula
field. -/
theorem cell_record_invariants (cells : Cells) (r c : Nat) (v : String) (cell : Cell)
    (h : handleCellValueChange r c v cells (getCellId r c) = some cell) :
    cell.id = getCellId r c ∧ cell.row = r ∧ cell.col = c ∧
    (cell.type = CellType.formula ↔ cell.formula ≠ none) ∧
    (cell.type = CellType.formula → cell.formula = some v ∧ startsWithEq v = true ∧
      ((∃ val : JSVal, cell.value = jsValToString val) ∨ cell.value = "#ERROR")) ∧
    (detectCellType v ≠ CellType.formula → cell.formula = none ∧ cell.value = v) := by
  rw [handleCellValueChange_lookup] at h
  obtain rfl : cell = _ := (Option.some.inj h).symm
  refine ⟨rfl, rfl, rfl, ?_, ?_, ?_⟩
  · show detectCellType v = CellType.formula ↔
      (if detectCellType v = CellType.formula then some v else none) ≠ none
    by_cases hf : detectCellType v = CellType.formula
    · simp [hf]
    · simp [hf]
  · show detectCellType v = CellType.formula →
      (if detectCellType v = CellType.formula then some v else none) = some v ∧
      startsWithEq v = true ∧
      ((∃ val : JSVal, (if detectCellType v = CellType.formula
          then evaluateFormula v cells else v) = jsValToString val) ∨
        (if detectCellType v = CellType.formula
          then evaluateFormula v cells else v) = "#ERROR")
    intro hdet
    refine ⟨by rw [if_pos hdet], detectCellType_formula_starts hdet, ?_⟩
    rw [if_pos hdet]
    exact evaluateFormula_shape v cells (detectCellType_formula_starts hdet)
  · show detectCellType v ≠ CellType.formula →
      (if detectCellType v = CellType.formula then some v else none) = none ∧
      (if detectCellType v = CellType.formula then evaluateFormula v cells else v) = v
    intro hnf
    exact ⟨by rw [if_neg hnf], by rw [if_neg hnf]⟩

/-- Witness for the amended claim C2 at the concrete formula committing
one plus two. -/
theorem cell_record_invariants_witness :
    exampleFormulaRecord.id = getCellId 0 0 ∧ exampleFormulaRecord.row = 0 ∧
    exampleFormulaRecord.col = 0 ∧
    (exampleFormulaRecord.type = CellType.formula ↔ exampleFormulaRecord.formula ≠ none) ∧
    (exampleFormulaRecord.type = CellType.formula →
      exampleFormulaRecord.formula = some "=1+2" ∧ startsWithEq "=1+2" = true ∧
      ((∃ val : JSVal, exampleFormulaRecord.value = jsValToString val) ∨
        exampleFormulaRecord.value = "#ERROR")) ∧
    (detectCellType "=1+2" ≠ CellType.formula →
      exampleFormulaRecord.formula = none ∧ exampleFormulaRecord.value = "=1+2") :=
  cell_record_invariants emptyCells 0 0 "=1+2" exampleFormulaRecord (by decide)

/-- Claim C3 (counterexample): evaluating the string literal formula
returns the string a, which is neither the string form of a number nor
the error token, so the claimed dichotomy between numeric string forms
and the error token fails at this input. -/
theorem evaluateFormula_counterexample :
    evaluateFormula "=\"a\"" emptyCells = "a" ∧
    ¬((∃ n : JSNum, evaluateFormula "=\"a\"" emptyCells = jsNumToString n) ∨
      evaluateFormula "=\"a\"" emptyCells = "#ERROR") := by
  have he : evaluateFormula "=\"a\"" emptyCells = "a" := by decide
  refine ⟨he, ?_⟩
  rw [he]
  rintro (⟨n, hn⟩ | h)
  · exact jsNumToString_ne_a n hn.symm
  · exact absurd h (by decide)

/-- Claim C3 (amended): evaluating an equals-prefixed formula never
propagates an exception (the evaluation is a total function): it returns
either the string form of the computed value or exactly the error token
on any evaluation failure.  The computed value is a number for arithmetic
expressions, with division by zero following the non-finite semantics
rather than being mapped to an error, but the dynamic evaluation runs
arbitrary expressions, so a successful result need not be numeric: the
string literal formula evaluates to the string a.  The malformed
expression of the spec example gives the error token. -/
theorem evaluateFormula_error_handling :
    (∀ (f : String) (cells : Cells), startsWithEq f = true →
      (∃ val : JSVal, evaluateFormula f cells = jsValToString val) ∨
        evaluateFormula f cells = "#ERROR") ∧
    evaluateFormula "=A1+(" emptyCells = "#ERROR" ∧
    evaluateFormula "=1/0" emptyCells = "Infinity" ∧
    evaluateFormula "=\"a\"" emptyCells = "a" :=
  ⟨evaluateFormula_shape, by decide, by decide, by decide⟩

/-- Witness for the amended claim C3 at a concrete formula. -/
theorem evaluateFormula_error_handling_witness :
    (∃ val : JSVal, evaluateFormula "=5*2" emptyCells = jsValToString val) ∨
      evaluateFormula "=5*2" emptyCells = "#ERROR" :=
  evaluateFormula_error_handling.1 "=5*2" emptyCells (by decide)

/-- Claim C4: an input without a leading equals sign is returned
unchanged; every maximal uppercase-letter run immediately followed by a
digit run is replaced as one whole address by its numeric replacement
string, which substitutes zero for a missing cell, an empty value or a
failed parse and otherwise the parsed value in string form; and on the
spec example where only A1 holds 3, the formula adding A1 and the missing
Z99 evaluates to 3. -/
theorem evaluateFormula_substitution :
    (∀ (f : String) (cells : Cells), startsWithEq f = false → evaluateFormula f cells = f) ∧
    (∀ (cells : Cells) (L D : List Char), L ≠ [] → D ≠ [] →
      (∀ ch ∈ L, isUpperAZ ch = true) → (∀ ch ∈ D, isDigitCh ch = true) →
      substituteRefs cells (String.mk (L ++ D)) = refReplacement cells (String.mk (L ++ D))) ∧
    evaluateFormula "=A1+Z99" exampleCellsA1 = "3" := by
  refine ⟨?_, substituteRefs_single_addr, by decide⟩
  intro f cells hf
  unfold evaluateFormula
  rw [hf]
  rfl

/-- Witness for claim C4 at a non-formula string and a lone address. -/
theorem evaluateFormula_substitution_witness :
    evaluateFormula "hello" emptyCells = "hello" ∧
      substituteRefs emptyCells (String.mk (['A', 'B'] ++ ['1', '2']))
        = refReplacement emptyCells (String.mk (['A', 'B'] ++ ['1', '2'])) :=
  ⟨evaluateFormula_substitution.1 "hello" emptyCells (by decide),
   evaluateFormula_substitution.2.1 emptyCells ['A', 'B'] ['1', '2'] (by decide) (by decide)
     (by decide) (by decide)⟩

/-- Claim C5 (counterexample): the word Infinity converts to a non-NaN but
non-finite number, so the detector classifies it as a number even though
the trimmed string does not parse as a finite numeric literal; the claimed
equivalence with finite parsing fails at this input. -/
theorem detect_number_counterexample :
    detectCellType "Infinity" = CellType.number ∧
      parsesAsFiniteNumericLiteral "Infinity" = false := by decide

/-- Claim C5 (amended): the detector classifies an input as a number
exactly when the string is nonempty after trimming and its whole-string
Number conversion is not NaN, that is, the entire trimmed string parses as
a numeric literal, finite or not (the word Infinity is accepted); a valid
number matching no earlier check never classifies as text, and the empty
string classifies as text, never as a number. -/
theorem detect_number_characterization (v : String) :
    (detectCellType v = CellType.number ↔
      (jsTrim v ≠ "" ∧ jsIsNaN (jsStringToNumber v) = false)) ∧
    detectCellType "" = CellType.text :=
  ⟨detectCellType_number_iff v, by decide⟩

/-- Claim C6: parsing the canonical address produced for any row and
column returns exactly that row and column, and the parser succeeds
exactly on strings matching the pattern of one or more uppercase letters
followed by one or more digits (failure models the thrown parse error). -/
theorem parse_address_roundtrip :
    (∀ r c : Nat, parseCellId (getCellId r c) = some ((r : Int), (c : Int))) ∧
    (∀ s : String, (parseCellId s).isSome = matchesAddressPattern s) :=
  ⟨parseCellId_getCellId, parseCellId_isSome_eq⟩

/-- Claim C7: letterToColumn inverts columnToLetter on every nonnegative
column index, and columnToLetter realises the bijective base-26 letter
sequence with no zero digit on the boundary examples. -/
theorem column_letter_roundtrip :
    (∀ c : Nat, letterToColumn (columnToLetter c) = (c : Int)) ∧
    columnToLetter 0 = "A" ∧ columnToLetter 25 = "Z" ∧ columnToLetter 26 = "AA" :=
  ⟨letterToColumn_columnToLetter, by decide, by decide, by decide⟩

/-- Claim C8: the store update changes only the entry at the target
address; every cell at any other address, including a formula cell whose
formula text references the target address, is left untouched, so its
cached value is never recomputed when a referenced cell changes. -/
theorem setCellValue_frame (cells : Cells) (r c : Nat) (v : String) (a : String)
    (h : a ≠ getCellId r c) :
    handleCellValueChange r c v cells a = cells a :=
  handleCellValueChange_frame cells r c v a h

/-- Witness for claim C8 at a distinct address. -/
theorem setCellValue_frame_witness :
    handleCellValueChange 0 0 "5" exampleCellsA1 "B2" = exampleCellsA1 "B2" :=
  setCellValue_frame exampleCellsA1 0 0 "5" "B2" (by decide)

/-- Claim C10: for every cell collection, the AI bridge fallback default
formula summing the colon range from A1 to A10 evaluates to the error
token, because substitution rewrites only the two embedded addresses and
leaves the function name and the colon in place, which never tokenizes as
an arithmetic expression; committing that formula at any cell therefore
always stores the error token as the value. -/
theorem ai_default_formula_errors (cells : Cells) (r c : Nat) :
    evaluateFormula "=SUM(A1:A10)" cells = "#ERROR" ∧
    handleCellValueChange r c "=SUM(A1:A10)" cells (getCellId r c) = some
      { id := getCellId r c, row := r, col := c, value := "#ERROR",
        formula := some "=SUM(A1:A10)", type := CellType.formula, style := none } := by
  have he := evaluateFormula_SUM cells
  refine ⟨he, ?_⟩
  rw [handleCellValueChange_lookup]
  have hdet : detectCellType "=SUM(A1:A10)" = CellType.formula := by decide
  simp [hdet, he]

end Spreadsheet
